import Mathlib

/-!
Verification development for `scripts/build_installer.py` of the
`guardian` repository.

The program is modelled shallowly:

* YAML values become the inductive type `Guardian.Value`; a Python `dict`
  becomes an association list `List (String × Value)` with unique keys
  (Python dictionaries cannot hold duplicate keys, so theorems about
  dictionary arguments may assume `Nodup` on the key list).  Insertion
  order is preserved, matching CPython's ordered dictionaries.
* File input/output is abstracted: `load_yaml` takes the value the YAML
  parser (an external collaborator) produced, and `build_context` takes
  the already-loaded mappings.
* The filesystem touched by `render_templates` becomes the explicit state
  `Guardian.FS` (files, directories and permission modes keyed by paths
  represented as component lists); the Jinja2 engine is abstracted as a
  function from template name to rendered text, and the enumerated
  template list is a parameter.  Degenerate path inputs (template names
  with empty components, file/directory name collisions) are outside the
  model, matching the loader's guarantee that template names are clean
  relative file paths.
* Python object identity, needed for the non-mutation claim about
  `deep_merge`, is modelled by an explicit heap (`Guardian.Heap`) of
  objects addressed by natural numbers, with a fuel-indexed merge.
-/

namespace Guardian

/-- A YAML value as produced by `yaml.safe_load`: null, booleans, numbers,
strings, sequences, and mappings (association lists in document order). -/
inductive Value where
  | null : Value
  | bool : Bool → Value
  | num : Int → Value
  | str : String → Value
  | list : List Value → Value
  | map : List (String × Value) → Value

/-- Dictionary lookup `d[k]` / `k in d`: the value at the first matching key. -/
def alookup {κ α : Type} [DecidableEq κ] : List (κ × α) → κ → Option α
  | [], _ => none
  | (k, v) :: rest, key => if k = key then some v else alookup rest key

/-- Dictionary assignment `d[k] = v`: replace the value at an existing key in
place (keeping its position, as CPython does) or append a new entry. -/
def setKey {κ α : Type} [DecidableEq κ] : List (κ × α) → κ → α → List (κ × α)
  | [], key, v => [(key, v)]
  | (k, w) :: rest, key, v =>
      if k = key then (key, v) :: rest else (k, w) :: setKey rest key v

/-- The check `isinstance(v, dict)`. -/
def isMapB : Value → Bool
  | Value.map _ => true
  | _ => false

/-- The entries of a mapping value (meaningful only when `isMapB`). -/
def asMap : Value → List (String × Value)
  | Value.map m => m
  | _ => []

/-- The check `key in merged and isinstance(merged[key], dict)` on the
result of a lookup. -/
def isMapSome : Option Value → Bool
  | some (Value.map _) => true
  | _ => false

theorem asMap_sizeOf_le (v : Value) : sizeOf (asMap v) ≤ sizeOf v := by
  cases v <;> simp [asMap]

/-- The function `deep_merge(base, override)` (build_installer.py lines
21-33).  The first argument is the accumulator `merged`, initialised with a
shallow copy of `base`; the second argument is the remaining items of
`override`.  For each override item: if the key is present in the
accumulator and both the stored value and the override value are mappings,
the stored value is replaced by the recursive merge of the two; otherwise
the override value is stored as-is. -/
def deep_merge : List (String × Value) → List (String × Value) → List (String × Value)
  | merged, [] => merged
  | merged, (key, v) :: rest =>
      let v' : Value :=
        if isMapSome (alookup merged key) && isMapB v then
          Value.map (deep_merge (asMap ((alookup merged key).getD Value.null)) (asMap v))
        else v
      deep_merge (setKey merged key v') rest
termination_by _ l => sizeOf l
decreasing_by
  · simp only [invImage, InvImage, Prod.mk.sizeOf_spec, List.cons.sizeOf_spec, sizeOf_default]
    have := asMap_sizeOf_le v
    omega
  · simp only [invImage, InvImage, Prod.mk.sizeOf_spec, List.cons.sizeOf_spec, sizeOf_default]
    omega

/-- The merged mapping used by `build_context` (build_installer.py lines
38-41): the base configuration, deep-merged with the override mapping when
an override file was given. -/
def merged_config (config : List (String × Value)) :
    Option (List (String × Value)) → List (String × Value)
  | some overrides => deep_merge config overrides
  | none => config

/-- The function `build_context` (build_installer.py lines 36-43) with YAML
loading abstracted away: its arguments are the loaded base mapping and the
optional loaded override mapping.  The context is the Python dict literal
`\x7b**config, "config": config\x7d`: all entries of the merged mapping,
with the key `config` bound to the merged mapping itself (overwriting any
existing entry named `config` in place). -/
def build_context (config : List (String × Value))
    (overrides : Option (List (String × Value))) : List (String × Value) :=
  setKey (merged_config config overrides) "config"
    (Value.map (merged_config config overrides))

/-- Python truthiness of a YAML value, as used by `x or \x7b\x7d`. -/
def pyTruthy : Value → Bool
  | Value.null => false
  | Value.bool b => b
  | Value.num n => n != 0
  | Value.str s => s.length != 0
  | Value.list l => !l.isEmpty
  | Value.map m => !m.isEmpty

/-- The function `load_yaml` (build_installer.py lines 15-18) with the file
read and the YAML parse abstracted: the argument is the value
`yaml.safe_load` returned (an empty document and a literal `null` both
parse to `Value.null`).  The body is `yaml.safe_load(handle) or \x7b\x7d`. -/
def load_yaml (parsed : Value) : Value :=
  if pyTruthy parsed then parsed else Value.map []

/-- The fixed `required_sections` list of `validate_config`
(build_installer.py lines 52-56). -/
def required_sections : List String := ["app", "installer", "docker"]

/-- Python's `", ".join(l)`. -/
def joinCommaSp : List String → String
  | [] => ""
  | [s] => s
  | s :: rest => s ++ ", " ++ joinCommaSp rest

/-- The function `validate_config` (build_installer.py lines 46-60):
raises `ValueError` (modelled as `Except.error` with the message) for an
empty mapping, or when any required section is absent; returns normally
otherwise. -/
def validate_config (config : List (String × Value)) : Except String Unit :=
  if config.isEmpty then
    Except.error "Configuration is empty after loading and merging YAML files."
  else
    let missing := required_sections.filter fun key => (alookup config key).isNone
    if missing.isEmpty then
      Except.ok ()
    else
      Except.error ("Missing required configuration sections: " ++ joinCommaSp missing)

/-! ### Paths

Paths are represented as lists of components.  Template names (as produced
by Jinja2's `FileSystemLoader.list_templates`) are strings whose components
are separated by `/`. -/

/-- Split a list of characters on `/`, accumulating the current component
in reverse. -/
def splitCompsAux : List Char → List Char → List String
  | [], acc => [String.mk acc.reverse]
  | c :: cs, acc =>
      if c = '/' then String.mk acc.reverse :: splitCompsAux cs []
      else splitCompsAux cs (c :: acc)

/-- Components of a `/`-separated relative path string. -/
def splitComps (s : String) : List String := splitCompsAux s.data []

/-- Join path components with `/` (the textual form of a path). -/
def joinComps : List String → String
  | [] => ""
  | [s] => s
  | s :: rest => s ++ "/" ++ joinComps rest

/-- Python string slicing `s[:-n]`. -/
def strDropLast (s : String) (n : Nat) : String :=
  String.mk (s.data.take (s.data.length - n))

/-- Whether `s` ends with `suf` (Python `str.endswith`). -/
def strEndsWith (s suf : String) : Bool :=
  decide (s.data.drop (s.data.length - suf.data.length) = suf.data)

/-- Index of the last `.` in a character list (Python `str.rfind('.')`),
threading the running index and the best answer so far. -/
def lastDotIdxAux : List Char → Nat → Option Nat → Option Nat
  | [], _, acc => acc
  | c :: cs, i, acc =>
      lastDotIdxAux cs (i + 1) (if c = '.' then some i else acc)

/-- Index of the last `.` in a string, if any. -/
def lastDotIdx (s : String) : Option Nat := lastDotIdxAux s.data 0 none

/-- The `suffix` property of `pathlib.PurePath` applied to a file name:
the part of the name from its last dot, except that a name whose only dot
is the leading character (a bare hidden file like `.sh`) or the trailing
character has no suffix. -/
def pySuffix (name : String) : String :=
  match lastDotIdx name with
  | some i =>
      if 0 < i ∧ i + 1 < name.data.length then String.mk (name.data.drop i)
      else ""
  | none => ""

/-- The `relative_output` path computed by `render_templates`
(build_installer.py lines 77-80): the template name with its final three
characters (the `.j2` suffix, guaranteed by the template filter) sliced
off, with the file name `installer.sh` rewritten to `homelab-install.sh`
in the same directory. -/
def relOutput (template_name : String) : List String :=
  let comps := splitComps (strDropLast template_name 3)
  if comps.getLastD "" = "installer.sh" then
    comps.dropLast ++ ["homelab-install.sh"]
  else comps

/-- The full output path `output_dir / relative_output`
(build_installer.py line 82). -/
def outPathOf (outDir : List String) (template_name : String) : List String :=
  outDir ++ relOutput template_name

/-- Reference definition for claim C4, following the specification's words
rather than the code: the output artifact path is the template's relative
path with the template suffix `.j2` stripped, except that a template whose
stripped file name is exactly `installer.sh` is written as
`homelab-install.sh` in the same relative directory. -/
def relOutputSpec (template_name : String) : List String :=
  let stripped :=
    if strEndsWith template_name ".j2" then
      String.mk (template_name.data.take (template_name.data.length - ".j2".data.length))
    else template_name
  let comps := splitComps stripped
  if comps.getLastD "" = "installer.sh" then
    comps.dropLast ++ ["homelab-install.sh"]
  else comps

/-! ### Filesystem state -/

/-- The filesystem state observed and modified by `render_templates`:
file contents, existing directories, and the permission modes explicitly
set by `chmod`, all keyed by paths in component form. -/
structure FS where
  files : List (List String × String)
  dirs : List (List String)
  modes : List (List String × Nat)
deriving DecidableEq

/-- All (non-empty) prefixes of a directory path: the directories that
`mkdir(parents=True)` guarantees to exist afterwards. -/
def ancestors (p : List String) : List (List String) :=
  (List.range p.length).map fun i => p.take (i + 1)

/-- The call `output_path.parent.mkdir(parents=True, exist_ok=True)`
(build_installer.py line 83): record every missing ancestor directory. -/
def mkdirParents (fs : FS) (d : List String) : FS :=
  { fs with dirs := fs.dirs ++ (ancestors d).filter fun a => decide (a ∉ fs.dirs) }

/-- The check `output_path.exists()`: a file or directory is present at the
path. -/
def pathHit (fs : FS) (p : List String) : Prop :=
  (alookup fs.files p).isSome = true ∨ p ∈ fs.dirs

instance (fs : FS) (p : List String) : Decidable (pathHit fs p) := by
  unfold pathHit; infer_instance

/-- The message of the `FileExistsError` raised on an overwrite conflict
(build_installer.py lines 86-88). -/
def conflictMsg (p : List String) : String :=
  "Refusing to overwrite existing artifact: " ++ joinComps p ++ " (use --force)"

/-- The body of the `for template_name in templates` loop of
`render_templates` (build_installer.py lines 75-97) for one template, with
the Jinja2 engine abstracted as the function `render` from template name
to rendered text.  Compute the output path, create the parent directory
hierarchy, fail if the path exists and `force` is not set (the error
carries the filesystem state at the raise), write the rendered text, and
set mode `0o755` when the output path's `suffix` is `.sh`. -/
def renderOne (outDir : List String) (render : String → String) (force : Bool)
    (fs : FS) (template_name : String) : Except (String × FS) FS :=
  let outPath := outPathOf outDir template_name
  let fs1 := mkdirParents fs outPath.dropLast
  if pathHit fs1 outPath ∧ force = false then
    Except.error (conflictMsg outPath, fs1)
  else
    let fs2 := { fs1 with files := setKey fs1.files outPath (render template_name) }
    if pySuffix (outPath.getLastD "") = ".sh" then
      Except.ok { fs2 with modes := setKey fs2.modes outPath 0o755 }
    else
      Except.ok fs2

/-- The function `render_templates` (build_installer.py lines 63-99) over
the enumerated template list, threading the filesystem state; a raised
`FileExistsError` aborts the remaining templates and carries the
filesystem state at the raise. -/
def render_templates (outDir : List String) (render : String → String)
    (force : Bool) : FS → List String → Except (String × FS) FS
  | fs, [] => Except.ok fs
  | fs, t :: rest =>
      match renderOne outDir render force fs t with
      | Except.ok fs' => render_templates outDir render force fs' rest
      | Except.error e => Except.error e

/-! ### Heap model of `deep_merge`

Claim C2 is about mutation and object identity, so `deep_merge` is also
embedded over an explicit heap of Python objects addressed by natural
numbers.  Dictionaries and lists hold references; scalars are stored
immutably.  The heap only ever grows by allocation at the end (`List`
append), and mutation of an existing address would be a replacement of an
earlier heap cell — which the theorems rule out. -/

/-- A heap-allocated Python object, with dictionary entries and list
elements holding references (heap addresses). -/
inductive Obj where
  | scalarStr : String → Obj
  | scalarInt : Int → Obj
  | scalarBool : Bool → Obj
  | scalarNone : Obj
  | dict : List (String × Nat) → Obj
  | arr : List Nat → Obj
deriving DecidableEq

/-- A heap: the object at address `i` is the `i`-th entry; allocation
appends. -/
abbrev Heap := List Obj

/-- The check `isinstance(h[r], dict)`. -/
def isDictAt (h : Heap) (r : Nat) : Bool :=
  match h[r]? with
  | some (Obj.dict _) => true
  | _ => false

/-- One iteration of the `for key, value in override.items()` loop of
`deep_merge`, parameterised by the recursive call `rec` (applied at one
fuel level down).  The state is the current heap together with the entries
of the local dictionary `merged`. -/
def mergeBodyF (rec : Heap → Nat → Nat → Option (Heap × Nat)) :
    Heap × List (String × Nat) → String × Nat → Option (Heap × List (String × Nat))
  | (h, merged), (key, vr) =>
      match alookup merged key with
      | some mr =>
          if isDictAt h mr && isDictAt h vr then
            match rec h mr vr with
            | some (h', r') => some (h', setKey merged key r')
            | none => none
          else some (h, setKey merged key vr)
      | none => some (h, setKey merged key vr)

/-- The function `deep_merge` (build_installer.py lines 21-33) over the
heap, fuel-indexed to bound the recursion depth (Python would recurse
without bound on cyclic dictionaries; YAML documents are acyclic, so some
fuel always suffices for them).  A call on addresses that do not hold
dictionaries is not modelled (`none`): Python's type annotations promise
dictionary arguments.  The accumulator `merged` starts as a shallow copy
of `base`'s entries and the result dictionary is allocated fresh at the
end of the call. -/
def deep_merge_heap : Nat → Heap → Nat → Nat → Option (Heap × Nat)
  | 0, _, _, _ => none
  | fuel + 1, h, a, b =>
      match h[a]?, h[b]? with
      | some (Obj.dict bas), some (Obj.dict ov) =>
          match List.foldlM (mergeBodyF (deep_merge_heap fuel)) (h, bas) ov with
          | some (h', m) => some (h' ++ [Obj.dict m], h'.length)
          | none => none
      | _, _ => none

/-! ### Association-list lemmas -/

theorem alookup_setKey_self {κ α : Type} [DecidableEq κ]
    (l : List (κ × α)) (k : κ) (v : α) : alookup (setKey l k v) k = some v := by
  induction l with
  | nil => simp [setKey, alookup]
  | cons hd rest ih =>
      obtain ⟨k0, v0⟩ := hd
      by_cases h : k0 = k
      · simp [setKey, h, alookup]
      · simp [setKey, h, alookup, ih]

theorem alookup_setKey_ne {κ α : Type} [DecidableEq κ]
    (l : List (κ × α)) (k k' : κ) (v : α) (hne : k' ≠ k) :
    alookup (setKey l k v) k' = alookup l k' := by
  induction l with
  | nil => simp [setKey, alookup, Ne.symm hne]
  | cons hd rest ih =>
      obtain ⟨k0, v0⟩ := hd
      by_cases h : k0 = k
      · subst h
        simp [setKey, alookup, Ne.symm hne]
      · simp only [setKey, if_neg h, alookup]
        by_cases h0 : k0 = k'
        · simp [h0]
        · simp [h0, ih]

theorem setKey_ne_nil {κ α : Type} [DecidableEq κ]
    (l : List (κ × α)) (k : κ) (v : α) : setKey l k v ≠ [] := by
  cases l with
  | nil => simp [setKey]
  | cons hd rest =>
      obtain ⟨k0, v0⟩ := hd
      by_cases h : k0 = k <;> simp [setKey, h]

theorem alookup_eq_none_of_not_mem_keys {κ α : Type} [DecidableEq κ]
    (l : List (κ × α)) (k : κ) (h : k ∉ l.map Prod.fst) : alookup l k = none := by
  induction l with
  | nil => rfl
  | cons hd rest ih =>
      obtain ⟨k0, v0⟩ := hd
      simp only [List.map_cons, List.mem_cons, not_or] at h
      simp [alookup, Ne.symm h.1, ih h.2]

/-- Keys outside the override mapping are untouched by the merge loop. -/
theorem alookup_deep_merge_of_not_mem_keys
    (override : List (String × Value)) :
    ∀ (merged : List (String × Value)) (k : String),
      k ∉ override.map Prod.fst →
      alookup (deep_merge merged override) k = alookup merged k := by
  induction override with
  | nil => intro merged k _; simp [deep_merge]
  | cons hd rest ih =>
      obtain ⟨k0, v0⟩ := hd
      intro merged k hk
      simp only [List.map_cons, List.mem_cons, not_or] at hk
      simp only [deep_merge]
      rw [ih _ _ hk.2, alookup_setKey_ne _ _ _ _ hk.1]

/-! ### Claim C1 -/

/-- C1: `deep_merge(base, override)` equals the reference deep-merge: for
every key `k`, if `k` is present in both inputs and both values are
mappings, the result at `k` is the recursive merge of the two values
(applied recursively to arbitrary depth, since the same equation governs
the nested merge); otherwise if `k` is present in `override`, the result at
`k` is exactly the override value; otherwise it is the base value.  The
override mapping, being a Python dictionary, has no duplicate keys. -/
theorem deep_merge_lookup_spec (override : List (String × Value)) :
    ∀ (base : List (String × Value)), (override.map Prod.fst).Nodup →
    ∀ (k : String),
      alookup (deep_merge base override) k =
        match alookup base k, alookup override k with
        | some (Value.map bm), some (Value.map om) =>
            some (Value.map (deep_merge bm om))
        | _, some v => some v
        | _, none => alookup base k := by
  induction override with
  | nil =>
      intro base _ k
      simp only [deep_merge, alookup]
  | cons hd rest ih =>
      obtain ⟨k0, v0⟩ := hd
      intro base hnd k
      simp only [List.map_cons, List.nodup_cons] at hnd
      simp only [deep_merge]
      by_cases hk : k = k0
      · subst hk
        rw [alookup_deep_merge_of_not_mem_keys rest _ _ hnd.1, alookup_setKey_self]
        simp only [alookup, if_pos rfl]
        rcases h : alookup base k with _ | mv
        · simp [isMapSome]
        · cases mv <;> cases v0 <;> simp [isMapSome, isMapB, asMap]
      · rw [ih _ hnd.2 k, alookup_setKey_ne _ _ _ _ hk]
        simp only [alookup, if_neg (Ne.symm hk)]

/-- Witness for C1: a concrete merge in which the key `b` holds nested
mappings on both sides (merged recursively) and the key `c` is taken from
the override. -/
theorem deep_merge_lookup_spec_witness :
    (([("b", Value.map [("y", Value.num 2)]), ("c", Value.num 3)] :
        List (String × Value)).map Prod.fst).Nodup
    ∧ alookup
        (deep_merge [("a", Value.num 1), ("b", Value.map [("x", Value.num 1)])]
          [("b", Value.map [("y", Value.num 2)]), ("c", Value.num 3)]) "b"
      = some (Value.map [("x", Value.num 1), ("y", Value.num 2)]) := by
  refine ⟨by decide, ?_⟩
  have h := deep_merge_lookup_spec
    [("b", Value.map [("y", Value.num 2)]), ("c", Value.num 3)]
    [("a", Value.num 1), ("b", Value.map [("x", Value.num 1)])] (by decide) "b"
  rw [h]
  simp [alookup, deep_merge, setKey, isMapSome, isMapB, asMap]

/-! ### Claims C6, C7, C8, C9 -/

/-- C6: `validate_config` errors on the empty mapping with the
empty-configuration message; on a non-empty mapping with at least one of
`app`, `installer`, `docker` absent it errors with one message naming the
comma-joined list of exactly the absent required keys; and it returns
normally when all three keys are present, for arbitrary values. -/
theorem validate_config_spec (config : List (String × Value)) :
    (validate_config [] =
        Except.error "Configuration is empty after loading and merging YAML files.")
    ∧ (config ≠ [] →
        required_sections.filter (fun key => (alookup config key).isNone) ≠ [] →
        validate_config config =
          Except.error ("Missing required configuration sections: " ++
            joinCommaSp (required_sections.filter fun key => (alookup config key).isNone)))
    ∧ (∀ (k : String),
        k ∈ required_sections.filter (fun key => (alookup config key).isNone) ↔
          (k ∈ required_sections ∧ alookup config k = none))
    ∧ ((alookup config "app").isSome = true →
        (alookup config "installer").isSome = true →
        (alookup config "docker").isSome = true →
        validate_config config = Except.ok ()) := by
  refine ⟨rfl, ?_, ?_, ?_⟩
  · intro hne hmiss
    rcases config with _ | ⟨hd, tl⟩
    · exact absurd rfl hne
    · simp only [validate_config, List.isEmpty_cons, Bool.false_eq_true, if_false]
      rw [if_neg]
      simpa using hmiss
  · intro k
    simp [List.mem_filter, Option.isNone_iff_eq_none]
  · intro ha hb hc
    rcases config with _ | ⟨hd, tl⟩
    · simp [alookup] at ha
    · obtain ⟨va, hva⟩ := Option.isSome_iff_exists.mp ha
      obtain ⟨vb, hvb⟩ := Option.isSome_iff_exists.mp hb
      obtain ⟨vc, hvc⟩ := Option.isSome_iff_exists.mp hc
      simp [validate_config, required_sections, List.filter, hva, hvb, hvc]

/-- Witness for C6: a mapping with only `app` fails naming `installer` and
`docker`; a mapping with all three sections (of arbitrary types) passes. -/
theorem validate_config_spec_witness :
    validate_config [("app", Value.num 1)] =
      Except.error "Missing required configuration sections: installer, docker"
    ∧ validate_config
        [("app", Value.num 1), ("installer", Value.null), ("docker", Value.bool true)] =
      Except.ok () := by
  constructor
  · exact (validate_config_spec [("app", Value.num 1)]).2.1
      (List.cons_ne_nil _ _) (by decide)
  · exact (validate_config_spec _).2.2.2 rfl rfl rfl

/-- C7: the rendering context exposes every key of the merged mapping
directly, and additionally binds the reserved key `config` to the whole
merged mapping — even when the configuration itself defined a top-level
key named `config`, which is silently overwritten (no error: the function
is total). -/
theorem build_context_spec (c : List (String × Value))
    (o : Option (List (String × Value))) :
    alookup (build_context c o) "config" = some (Value.map (merged_config c o))
    ∧ ∀ (k : String), k ≠ "config" →
        alookup (build_context c o) k = alookup (merged_config c o) k := by
  exact ⟨alookup_setKey_self _ _ _, fun k hk => alookup_setKey_ne _ _ _ _ hk⟩

/-- Witness for C7: a configuration that itself defines a top-level key
named `config` has that entry silently replaced by the self-reference,
while its other keys are passed through. -/
theorem build_context_spec_witness :
    alookup (build_context [("config", Value.str "user"), ("app", Value.num 1)] none)
        "config"
      = some (Value.map [("config", Value.str "user"), ("app", Value.num 1)])
    ∧ alookup (build_context [("config", Value.str "user"), ("app", Value.num 1)] none)
        "app"
      = some (Value.num 1) := by
  have h := build_context_spec [("config", Value.str "user"), ("app", Value.num 1)] none
  refine ⟨h.1, ?_⟩
  rw [h.2 "app" (by decide)]
  rfl

/-- C8: `load_yaml` returns an empty mapping, rather than failing or
returning null, when the YAML document parses to an empty document or a
literal null (both of which the parser returns as `None`). -/
theorem load_yaml_empty_document : load_yaml Value.null = Value.map [] := rfl

/-- C9: the empty-configuration branch of `validate_config` is unreachable
through the pipeline: `build_context` always yields a mapping containing
the key `config`, hence a non-empty mapping, so `validate_config` applied
to any built context never produces the empty-configuration error; an
empty base configuration with no override fails with the missing-sections
error naming all three required keys. -/
theorem empty_config_branch_unreachable :
    (∀ (c : List (String × Value)) (o : Option (List (String × Value))),
        build_context c o ≠ []
        ∧ (alookup (build_context c o) "config").isSome = true
        ∧ validate_config (build_context c o) ≠
            Except.error "Configuration is empty after loading and merging YAML files.")
    ∧ validate_config (build_context [] none) =
        Except.error "Missing required configuration sections: app, installer, docker" := by
  constructor
  · intro c o
    refine ⟨setKey_ne_nil _ _ _, ?_, ?_⟩
    · simp [build_context, alookup_setKey_self]
    · intro heq
      rcases hctx : build_context c o with _ | ⟨hd, tl⟩
      · exact setKey_ne_nil _ _ _ hctx
      · rw [hctx] at heq
        cases ha : (alookup (hd :: tl) "app").isNone <;>
          cases hb : (alookup (hd :: tl) "installer").isNone <;>
            cases hc : (alookup (hd :: tl) "docker").isNone <;>
              simp [validate_config, required_sections, List.filter, ha, hb, hc,
                joinCommaSp] at heq
  · rfl

/-- Witness for C9: a concrete pipeline context is rejected with a
message distinct from the empty-configuration one. -/
theorem empty_config_branch_unreachable_witness :
    validate_config (build_context [("app", Value.num 1)] none) ≠
      Except.error "Configuration is empty after loading and merging YAML files." :=
  (empty_config_branch_unreachable.1 [("app", Value.num 1)] none).2.2

/-! ### Claim C2 -/

theorem getElem?_of_isPrefix {h h' : Heap} (hpre : h <+: h') {i : Nat}
    (hi : i < h.length) : h'[i]? = h[i]? := by
  obtain ⟨t, rfl⟩ := hpre
  rw [List.getElem?_append_left hi]

theorem lt_length_of_getElem?_eq_some {l : Heap} {i : Nat} {x : Obj}
    (h : l[i]? = some x) : i < l.length := by
  by_contra hc
  rw [List.getElem?_eq_none (le_of_not_lt hc)] at h
  exact Option.noConfusion h

/-- The merge loop only grows the heap: one pass over the override items,
given that the recursive call only grows the heap. -/
theorem mergeFold_extends (f : Heap → Nat → Nat → Option (Heap × Nat))
    (hf : ∀ (h : Heap) (a b : Nat) (h' : Heap) (r : Nat),
        f h a b = some (h', r) → h <+: h') :
    ∀ (l : List (String × Nat)) (h : Heap) (m : List (String × Nat))
      (h' : Heap) (m' : List (String × Nat)),
      List.foldlM (mergeBodyF f) (h, m) l = some (h', m') → h <+: h' := by
  intro l
  induction l with
  | nil =>
      intro h m h' m' hfold
      simp only [List.foldlM_nil, pure, Option.some.injEq, Prod.mk.injEq] at hfold
      rw [hfold.1]
  | cons kv rest ih =>
      intro h m h' m' hfold
      rw [List.foldlM_cons] at hfold
      rcases hstep : mergeBodyF f (h, m) kv with _ | st
      · rw [hstep] at hfold; exact Option.noConfusion hfold
      · rw [hstep] at hfold
        have h1 : h <+: st.1 := by
          obtain ⟨k, vr⟩ := kv
          simp only [mergeBodyF] at hstep
          split at hstep
          · split at hstep
            · split at hstep
              · simp only [Option.some.injEq] at hstep
                rw [← hstep]
                exact hf _ _ _ _ _ (by assumption)
              · exact Option.noConfusion hstep
            · simp only [Option.some.injEq] at hstep
              rw [← hstep]
          · simp only [Option.some.injEq] at hstep
            rw [← hstep]
        exact h1.trans (ih st.1 st.2 h' m' hfold)

/-- Each successful heap merge only appends to the heap, allocates its
result at a fresh address, and was called on addresses inside the heap. -/
theorem deep_merge_heap_extends :
    ∀ (fuel : Nat) (h : Heap) (a b : Nat) (h' : Heap) (r : Nat),
      deep_merge_heap fuel h a b = some (h', r) →
      h <+: h' ∧ h.length ≤ r ∧ r < h'.length ∧ a < h.length ∧ b < h.length := by
  intro fuel
  induction fuel with
  | zero => intro h a b h' r hm; exact Option.noConfusion hm
  | succ fuel ih =>
      intro h a b h' r hm
      simp only [deep_merge_heap] at hm
      split at hm
      · rename_i bas ov hA hB
        split at hm
        · rename_i p h1 m hF
          simp only [Option.some.injEq, Prod.mk.injEq] at hm
          obtain ⟨hh', hr⟩ := hm
          have hpre : h <+: h1 :=
            mergeFold_extends (deep_merge_heap fuel)
              (fun h a b h' r hmm => (ih h a b h' r hmm).1)
              ov h bas h1 m hF
          refine ⟨?_, ?_, ?_, lt_length_of_getElem?_eq_some hA,
            lt_length_of_getElem?_eq_some hB⟩
          · rw [← hh']
            exact hpre.trans (List.prefix_append _ _)
          · rw [← hr]
            exact hpre.length_le
          · rw [← hh', ← hr]
            simp
        · exact Option.noConfusion hm
      · exact Option.noConfusion hm

/-- C2: `deep_merge(A, B)` leaves both arguments unmodified — every object
present in the heap before the call, at any nesting depth, is unchanged
after it — and the returned mapping is a freshly allocated object distinct
from `A` and `B`. -/
theorem deep_merge_no_mutation (fuel : Nat) (h h' : Heap) (a b r : Nat)
    (hm : deep_merge_heap fuel h a b = some (h', r)) :
    (∀ (i : Nat), i < h.length → h'[i]? = h[i]?) ∧
      h.length ≤ r ∧ r ≠ a ∧ r ≠ b := by
  obtain ⟨hpre, hlen, _, hA, hB⟩ := deep_merge_heap_extends fuel h a b h' r hm
  refine ⟨fun i hi => getElem?_of_isPrefix hpre hi, hlen, by omega, by omega⟩

/-- Witness for C2: merging two concrete heap dictionaries preserves every
pre-existing heap cell and returns a fresh address. -/
theorem deep_merge_no_mutation_witness :
    (∀ (i : Nat), i < ([Obj.dict [], Obj.dict [("a", 0)]] : Heap).length →
        ([Obj.dict [], Obj.dict [("a", 0)], Obj.dict [("a", 0)]] : Heap)[i]? =
          ([Obj.dict [], Obj.dict [("a", 0)]] : Heap)[i]?) ∧
      ([Obj.dict [], Obj.dict [("a", 0)]] : Heap).length ≤ 2 ∧
      (2 : Nat) ≠ 0 ∧ (2 : Nat) ≠ 1 :=
  deep_merge_no_mutation 2 [Obj.dict [], Obj.dict [("a", 0)]]
    [Obj.dict [], Obj.dict [("a", 0)], Obj.dict [("a", 0)]] 0 1 2 rfl

/-! ### Claim C4 -/

/-- C4: for every template in the template set — a name ending in the
template suffix `.j2`, per the loader's filter — the computed output path
is the template's relative path with the template suffix stripped, except
that a template whose stripped file name is exactly `installer.sh` is
written as `homelab-install.sh` in the same relative directory
(`relOutputSpec` transcribes the specification's wording; the code slices
off the final three characters unconditionally). -/
theorem relOutput_matches_spec (t : String) (h : strEndsWith t ".j2" = true) :
    relOutput t = relOutputSpec t := by
  unfold relOutput relOutputSpec strDropLast
  rw [if_pos h]
  rfl

/-- Witness for C4: the renamed installer template and an ordinary
template. -/
theorem relOutput_matches_spec_witness :
    strEndsWith "scripts/installer.sh.j2" ".j2" = true
    ∧ relOutput "scripts/installer.sh.j2" = relOutputSpec "scripts/installer.sh.j2"
    ∧ relOutput "scripts/installer.sh.j2" = ["scripts", "homelab-install.sh"]
    ∧ relOutput "docs/README.md.j2" = ["docs", "README.md"] := by
  exact ⟨by decide, relOutput_matches_spec _ (by decide), by decide, by decide⟩

/-! ### Claim C5 -/

theorem sh_data : (".sh" : String).data = ['.', 's', 'h'] := rfl

theorem sh_data_len : (".sh" : String).data.length = 3 := rfl

theorem lastDotIdxAux_append_dot_sh (pre : List Char) :
    ∀ (i : Nat) (acc : Option Nat),
      lastDotIdxAux (pre ++ ['.', 's', 'h']) i acc = some (i + pre.length) := by
  induction pre with
  | nil => intro i acc; simp [lastDotIdxAux]
  | cons c cs ih =>
      intro i acc
      simp only [List.cons_append, lastDotIdxAux, List.append_eq]
      rw [ih (i + 1) _]
      simp only [List.length_cons, Option.some.injEq]
      omega

/-- The `chmod` test `output_path.suffix == ".sh"` holds exactly for file
names that end in `.sh` and are longer than the bare name `.sh`. -/
theorem pySuffix_eq_sh_iff (name : String) :
    pySuffix name = ".sh" ↔ (strEndsWith name ".sh" = true ∧ name ≠ ".sh") := by
  constructor
  · intro h
    unfold pySuffix at h
    split at h
    · rename_i i hL
      split at h
      · rename_i hc
        have hdata : name.data.drop i = ['.', 's', 'h'] := by
          have h2 := congrArg String.data h
          rw [sh_data] at h2
          exact h2
        have hlen : name.data.length - i = 3 := by
          have h2 := congrArg List.length hdata
          simpa using h2
        have hi : i = name.data.length - 3 := by omega
        constructor
        · unfold strEndsWith
          rw [decide_eq_true_eq, sh_data_len, sh_data, ← hi]
          exact hdata
        · intro hns
          rw [hns] at hc hi
          have h3 : (".sh" : String).data.length = 3 := rfl
          omega
      · exact absurd h (by decide)
    · exact absurd h (by decide)
  · rintro ⟨hE, hne⟩
    unfold strEndsWith at hE
    rw [decide_eq_true_eq, sh_data_len, sh_data] at hE
    have hlenE : name.data.length - (name.data.length - 3) = 3 := by
      have h2 := congrArg List.length hE
      simpa using h2
    have hge : 3 ≤ name.data.length := by omega
    have hsplit : name.data = name.data.take (name.data.length - 3) ++ ['.', 's', 'h'] := by
      conv_lhs => rw [← List.take_append_drop (name.data.length - 3) name.data]
      rw [hE]
    have htlen : (name.data.take (name.data.length - 3)).length = name.data.length - 3 := by
      rw [List.length_take]
      omega
    have hidx : lastDotIdx name = some (name.data.length - 3) := by
      unfold lastDotIdx
      conv_lhs => rw [hsplit]
      rw [lastDotIdxAux_append_dot_sh, htlen, Nat.zero_add]
    have hlen4 : 4 ≤ name.data.length := by
      rcases Nat.lt_or_ge name.data.length 4 with hlt | hge4
      · exfalso
        apply hne
        have hlen3 : name.data.length = 3 := by omega
        have hpre0 : name.data.take (name.data.length - 3) = [] := by
          rw [hlen3]
          simp
        have hdd : name.data = ['.', 's', 'h'] := by
          conv_lhs => rw [hsplit]
          rw [hpre0]
          rfl
        exact String.ext (hdd.trans sh_data.symm)
      · exact hge4
    unfold pySuffix
    rw [hidx]
    show (if 0 < name.data.length - 3 ∧ (name.data.length - 3) + 1 < name.data.length
        then String.mk (name.data.drop (name.data.length - 3)) else "") = ".sh"
    rw [if_pos ⟨by omega, by omega⟩]
    exact String.ext (hE.trans sh_data.symm)

/-- C5 counterexample: rendering the template `.sh.j2` succeeds and writes
the artifact `build/.sh`, whose final output path ends in `.sh`, yet its
permission mode is never set: `pathlib` assigns the bare dot-name `.sh` an
empty suffix, so the `chmod` branch is skipped and the claim as stated
fails at this input. -/
theorem sh_chmod_claim_cex :
    renderOne ["build"] (fun _ => "rendered") false ⟨[], [], []⟩ ".sh.j2" =
      Except.ok ⟨[(["build", ".sh"], "rendered")], [["build"]], []⟩
    ∧ strEndsWith (joinComps ["build", ".sh"]) ".sh" = true
    ∧ alookup (FS.mk [(["build", ".sh"], "rendered")] [["build"]] []).modes
        ["build", ".sh"] = none :=
  ⟨rfl, by decide, rfl⟩

/-- C5 (amended): for every successfully rendered artifact, the renderer
sets permission mode `0o755` exactly when the output file name's
pathlib-style suffix is `.sh` — that is, when the name ends in `.sh` and
is not the bare dot-name `.sh` itself; for names not ending in `.sh`, and
for the bare name `.sh`, the permission map is left unaltered. -/
theorem chmod_rule (outDir : List String) (render : String → String)
    (force : Bool) (fs fs' : FS) (t : String)
    (h : renderOne outDir render force fs t = Except.ok fs') :
    (strEndsWith ((outPathOf outDir t).getLastD "") ".sh" = true →
        (outPathOf outDir t).getLastD "" ≠ ".sh" →
        alookup fs'.modes (outPathOf outDir t) = some 0o755)
    ∧ (strEndsWith ((outPathOf outDir t).getLastD "") ".sh" = false →
        alookup fs'.modes (outPathOf outDir t) = alookup fs.modes (outPathOf outDir t))
    ∧ ((outPathOf outDir t).getLastD "" = ".sh" →
        alookup fs'.modes (outPathOf outDir t) = alookup fs.modes (outPathOf outDir t)) := by
  simp only [renderOne] at h
  split at h
  · exact Except.noConfusion h
  · split at h
    · rename_i hsfx
      simp only [Except.ok.injEq] at h
      rw [← h]
      have hES := (pySuffix_eq_sh_iff _).mp hsfx
      refine ⟨fun _ _ => alookup_setKey_self _ _ _, ?_, ?_⟩
      · intro hfalse
        rw [hES.1] at hfalse
        exact Bool.noConfusion hfalse
      · intro hbare
        exact absurd hbare hES.2
    · rename_i hsfx
      simp only [Except.ok.injEq] at h
      rw [← h]
      have hne : ¬(strEndsWith ((outPathOf outDir t).getLastD "") ".sh" = true ∧
          (outPathOf outDir t).getLastD "" ≠ ".sh") :=
        fun hc => hsfx ((pySuffix_eq_sh_iff _).mpr hc)
      refine ⟨fun hE hb => absurd ⟨hE, hb⟩ hne, fun _ => rfl, fun _ => rfl⟩

/-- Witness for C5 (amended): `run.sh.j2` gets mode `0o755`;
`README.md.j2` leaves the permission map untouched. -/
theorem chmod_rule_witness :
    alookup (FS.mk [(["build", "run.sh"], "x")] [["build"]] [(["build", "run.sh"], 0o755)]).modes
        ["build", "run.sh"] = some 0o755
    ∧ alookup (FS.mk [(["build", "README.md"], "x")] [["build"]] []).modes
        ["build", "README.md"] = alookup (FS.mk [] [] [] : FS).modes ["build", "README.md"] := by
  constructor
  · exact (chmod_rule ["build"] (fun _ => "x") false ⟨[], [], []⟩
      ⟨[(["build", "run.sh"], "x")], [["build"]], [(["build", "run.sh"], 0o755)]⟩
      "run.sh.j2" rfl).1 (by decide) (by decide)
  · exact (chmod_rule ["build"] (fun _ => "x") false ⟨[], [], []⟩
      ⟨[(["build", "README.md"], "x")], [["build"]], []⟩
      "README.md.j2" rfl).2.1 (by decide)

/-! ### Claims C3 and C10 -/

/-- Templates are processed in order: a run over `pre ++ rest` that
succeeds on `pre` continues over `rest` from the reached state. -/
theorem render_templates_append (outDir : List String) (render : String → String)
    (force : Bool) :
    ∀ (pre : List String) (fs0 fs1 : FS) (rest : List String),
      render_templates outDir render force fs0 pre = Except.ok fs1 →
      render_templates outDir render force fs0 (pre ++ rest) =
        render_templates outDir render force fs1 rest := by
  intro pre
  induction pre with
  | nil =>
      intro fs0 fs1 rest h
      simp only [render_templates, Except.ok.injEq] at h
      rw [List.nil_append, h]
  | cons t ts ih =>
      intro fs0 fs1 rest h
      simp only [List.cons_append]
      simp only [render_templates] at h ⊢
      rcases hr : renderOne outDir render force fs0 t with e | fsn
      · rw [hr] at h
        exact Except.noConfusion h
      · rw [hr] at h
        exact ih fsn fs1 rest h

/-- Every directory `mkdir(parents=True)` was asked for is present
afterwards. -/
theorem ancestors_mem_mkdirParents (fs : FS) (dd : List String) :
    ∀ d ∈ ancestors dd, d ∈ (mkdirParents fs dd).dirs := by
  intro d hd
  simp only [mkdirParents, List.mem_append, List.mem_filter]
  by_cases h : d ∈ fs.dirs
  · exact Or.inl h
  · exact Or.inr ⟨hd, decide_eq_true h⟩

/-- Directories that existed before `mkdir` still exist afterwards. -/
theorem dirs_subset_mkdirParents (fs : FS) (dd : List String) :
    ∀ d ∈ fs.dirs, d ∈ (mkdirParents fs dd).dirs := by
  intro d hd
  simp only [mkdirParents, List.mem_append]
  exact Or.inl hd

/-- C3: if the computed output path of template `t` already holds a file
after the run over the earlier templates `pre`, and `force` is false, the
whole run aborts with the already-exists error naming that path: no later
template is processed (the result does not depend on `post`), the existing
file's contents and all artifacts written for `pre` are exactly the files
of the reached state (only directories were added); and with `force` true
a single render replaces the existing file's contents with the newly
rendered text. -/
theorem render_conflict_spec :
    (∀ (outDir : List String) (render : String → String) (fs0 : FS)
        (pre : List String) (t : String) (post : List String) (fs1 : FS) (old : String),
        render_templates outDir render false fs0 pre = Except.ok fs1 →
        alookup fs1.files (outPathOf outDir t) = some old →
        render_templates outDir render false fs0 (pre ++ t :: post) =
          Except.error (conflictMsg (outPathOf outDir t),
            mkdirParents fs1 (outPathOf outDir t).dropLast)
        ∧ alookup (mkdirParents fs1 (outPathOf outDir t).dropLast).files
            (outPathOf outDir t) = some old
        ∧ (mkdirParents fs1 (outPathOf outDir t).dropLast).files = fs1.files)
    ∧ (∀ (outDir : List String) (render : String → String) (fs : FS)
        (t : String) (old : String),
        alookup fs.files (outPathOf outDir t) = some old →
        ∃ fs', renderOne outDir render true fs t = Except.ok fs'
          ∧ alookup fs'.files (outPathOf outDir t) = some (render t)) := by
  constructor
  · intro outDir render fs0 pre t post fs1 old hpre hex
    have hfiles : (mkdirParents fs1 (outPathOf outDir t).dropLast).files = fs1.files := rfl
    have hone : renderOne outDir render false fs1 t =
        Except.error (conflictMsg (outPathOf outDir t),
          mkdirParents fs1 (outPathOf outDir t).dropLast) := by
      simp only [renderOne]
      rw [if_pos]
      constructor
      · exact Or.inl (by rw [hfiles, hex]; rfl)
      · trivial
    refine ⟨?_, by rw [hfiles, hex], hfiles⟩
    rw [render_templates_append outDir render false pre fs0 fs1 (t :: post) hpre]
    simp only [render_templates]
    rw [hone]
  · intro outDir render fs t old hex
    rcases hres : renderOne outDir render true fs t with e | fs2
    · exfalso
      simp only [renderOne] at hres
      split at hres
      · rename_i hcond
        simp at hcond
      · split at hres <;> exact Except.noConfusion hres
    · refine ⟨fs2, rfl, ?_⟩
      simp only [renderOne] at hres
      split at hres
      · exact Except.noConfusion hres
      · split at hres <;>
          (simp only [Except.ok.injEq] at hres; rw [← hres];
            exact alookup_setKey_self _ _ _)

/-- Witness for C3: with a stale `build/b.txt` on disk, a run over
`a.txt.j2`, `b.txt.j2`, `c.txt.j2` writes `a.txt`, then aborts on
`b.txt.j2` leaving the old contents and the new `a.txt` in place; with
`force`, a single render of `b.txt.j2` replaces the contents. -/
theorem render_conflict_spec_witness :
    render_templates ["build"] (fun _ => "new") false
        ⟨[(["build", "b.txt"], "old")], [], []⟩
        (["a.txt.j2"] ++ "b.txt.j2" :: ["c.txt.j2"]) =
      Except.error (conflictMsg ["build", "b.txt"],
        mkdirParents
          ⟨[(["build", "b.txt"], "old"), (["build", "a.txt"], "new")], [["build"]], []⟩
          ["build"])
    ∧ alookup (mkdirParents
          ⟨[(["build", "b.txt"], "old"), (["build", "a.txt"], "new")], [["build"]], []⟩
          ["build"]).files ["build", "b.txt"] = some "old"
    ∧ (∃ fs', renderOne ["build"] (fun _ => "overwritten") true
          ⟨[(["build", "b.txt"], "old")], [], []⟩ "b.txt.j2" = Except.ok fs'
        ∧ alookup fs'.files ["build", "b.txt"] = some "overwritten") := by
  have h1 := render_conflict_spec.1 ["build"] (fun _ => "new")
    ⟨[(["build", "b.txt"], "old")], [], []⟩ ["a.txt.j2"] "b.txt.j2" ["c.txt.j2"]
    ⟨[(["build", "b.txt"], "old"), (["build", "a.txt"], "new")], [["build"]], []⟩
    "old" rfl rfl
  have h2 := render_conflict_spec.2 ["build"] (fun _ => "overwritten")
    ⟨[(["build", "b.txt"], "old")], [], []⟩ "b.txt.j2" "old" rfl
  exact ⟨h1.1, h1.2.1, h2⟩

/-- C10: the parent directory hierarchy of a template's output path is
created before the overwrite check, so a run that aborts with the
already-exists conflict at that template has nevertheless persisted every
ancestor directory of that very template's output path — in addition to
the directories and artifacts of the earlier templates, which remain. -/
theorem render_mkdir_before_check (outDir : List String) (render : String → String)
    (fs0 : FS) (pre : List String) (t : String) (post : List String)
    (fs1 : FS) (msg : String) (fs2 : FS)
    (hpre : render_templates outDir render false fs0 pre = Except.ok fs1)
    (ht : renderOne outDir render false fs1 t = Except.error (msg, fs2)) :
    render_templates outDir render false fs0 (pre ++ t :: post) =
      Except.error (msg, fs2)
    ∧ (∀ d ∈ ancestors (outPathOf outDir t).dropLast, d ∈ fs2.dirs)
    ∧ (∀ d ∈ fs1.dirs, d ∈ fs2.dirs)
    ∧ fs2.files = fs1.files := by
  have hfs2 : fs2 = mkdirParents fs1 (outPathOf outDir t).dropLast := by
    simp only [renderOne] at ht
    split at ht
    · simp only [Except.error.injEq, Prod.mk.injEq] at ht
      exact ht.2.symm
    · split at ht <;> exact Except.noConfusion ht
  refine ⟨?_, ?_, ?_, ?_⟩
  · rw [render_templates_append outDir render false pre fs0 fs1 (t :: post) hpre]
    simp only [render_templates]
    rw [ht]
  · rw [hfs2]
    exact ancestors_mem_mkdirParents fs1 _
  · rw [hfs2]
    exact dirs_subset_mkdirParents fs1 _
  · rw [hfs2]
    rfl

/-- Witness for C10: a conflicting template `sub/x.txt.j2` aborts the run,
yet the previously missing directories `build` and `build/sub` exist in
the abort state. -/
theorem render_mkdir_before_check_witness :
    render_templates ["build"] (fun _ => "new") false
        ⟨[(["build", "sub", "x.txt"], "old")], [], []⟩ ["sub/x.txt.j2"] =
      Except.error (conflictMsg ["build", "sub", "x.txt"],
        ⟨[(["build", "sub", "x.txt"], "old")], [["build"], ["build", "sub"]], []⟩)
    ∧ ["build", "sub"] ∈
        (FS.mk [(["build", "sub", "x.txt"], "old")] [["build"], ["build", "sub"]] []).dirs
    ∧ (FS.mk [(["build", "sub", "x.txt"], "old")] [["build"], ["build", "sub"]] []).files =
        (FS.mk [(["build", "sub", "x.txt"], "old")] [] [] : FS).files := by
  have h := render_mkdir_before_check ["build"] (fun _ => "new")
    ⟨[(["build", "sub", "x.txt"], "old")], [], []⟩ [] "sub/x.txt.j2" []
    ⟨[(["build", "sub", "x.txt"], "old")], [], []⟩
    (conflictMsg ["build", "sub", "x.txt"])
    ⟨[(["build", "sub", "x.txt"], "old")], [["build"], ["build", "sub"]], []⟩
    rfl rfl
  exact ⟨h.1, h.2.1 ["build", "sub"] (by decide), h.2.2.2⟩

end Guardian
